import Mathlib

/-!
Verification of the lune-simfoni CSV emission-estimation pipeline.

The development shallowly embeds the core of the TypeScript tool
(`src/unnamed/part_001`, helpers in `src/unnamed/part_003`):
the retry-wrapped estimation request adapter (`calculateEmissions`), the
permutation generator (`searchCategoryPermutations`), the per-candidate task
body, the ranking/merging policy, the chunked output writer embedded in the
driver loop of `main`, and the CSV-loading validation (`passArray`,
`passStringRecord`, `loadCsv`).

Modelling conventions:
* Asynchronous service calls are modelled by an oracle `Nat → CallResult`
  giving the result of the i-th underlying call for a candidate.
* JS numbers handled through `Big` are modelled as rationals (`ℚ`); the
  string rendering of such numbers is abstracted by `numToString`.
* `null`/`undefined` scores are modelled as `none` (the code treats the two
  identically in every use site: the partition filters and JS truthiness).
* Time is not modelled; the 500 ms backoff waits are accumulated as a
  millisecond counter in the returned trace.
-/

namespace LuneSimfoni

/-- Mirror of the `ts-results-es` `Result` type used throughout the code. -/
inductive TSResult (T : Type) (E : Type) where
  | ok (value : T)
  | err (error : E)
deriving DecidableEq

/-- `Result.isErr()`. -/
def TSResult.isErr {T E : Type} : TSResult T E → Bool
  | .ok _ => false
  | .err _ => true

/-- `Result.mapErr(f)`. -/
def TSResult.mapErr {T E E' : Type} (f : E → E') : TSResult T E → TSResult T E'
  | .ok v => .ok v
  | .err e => .err (f e)

/-- The retry cap of the estimation request adapter (part_001 line 11). -/
def MAX_RETRIES : Nat := 5

/-- The fields of the `TransactionEmissionEstimate` service response that the
code consumes (part_001 lines 121-153): `mass.amount` (absence of `mass`
signals "no usable classification"), the emission-factor fields,
optional `exchangeRate`, optional `searchTermMatchScore`, and the estimate
`id`.  Numeric fields fed to `Big` are modelled as rationals. -/
structure TransactionEmissionEstimate where
  massAmount : Option String
  emissionFactorName : String
  emissionFactorSource : String
  emissionFactorNumeratorUnit : String
  emissionFactorDenominatorUnit : String
  co2E : ℚ
  exchangeRate : Option ℚ
  searchTermMatchScore : Option ℚ
  id : String
deriving DecidableEq

/-- The success payload of `calculateEmissions` (part_001 lines 66-80). -/
structure EmissionsResult where
  emissionsTCo2 : String
  emissionFactorName : String
  emissionFactorSource : String
  emissionFactorIntensity : String
  emissionFactorNumeratorUnit : String
  emissionFactorDenominatorUnit : String
  requestedCurrency : String
  exchangeRate : String
  score : Option ℚ
  dashboardUrl : String
deriving DecidableEq

/-- Abstraction of the decimal rendering `Big(...).toString()`. -/
def numToString (q : ℚ) : String := toString q

/-- `dashboardUrl` (part_001 lines 42-44). -/
def dashboardUrl (estimateId : String) : String :=
  "https://dashboard.lune.co/calculate-emissions/everyday-purchases/"
    ++ estimateId ++ "/results"

/-- The result of one underlying `createTransactionEstimate` call: a success
response, an error object carrying a `statusCode` property (non-retryable
rejection), or an error without one (transport/unknown, transient). -/
inductive CallResult where
  | okResp (res : TransactionEmissionEstimate)
  | errStatus (description : String)
  | errTransient (description : String)
deriving DecidableEq

/-- Whether a call result is a transient (no status code) error. -/
def CallResult.isTransient : CallResult → Bool
  | .errTransient _ => true
  | _ => false

/-- The `description` carried by an error result (`""` for a success). -/
def CallResult.desc : CallResult → String
  | .okResp _ => ""
  | .errStatus d => d
  | .errTransient d => d

/-- How the retry loop of `calculateEmissions` terminated: `break` with a
success response, an early `return Err(...)`, or — impossibly, see
`retryGo_ne_exhausted` — falling out of the `for` without a result (which
would make the subsequent `result!.unwrap()` crash). -/
inductive LoopExit where
  | brokeOk (res : TransactionEmissionEstimate)
  | returnedErr (description : String)
  | exhausted
deriving DecidableEq

/-- Trace of the retry loop: how it exited, how many underlying service calls
were made, and the total backoff wait in milliseconds. -/
structure RetryTrace where
  exit : LoopExit
  calls : Nat
  sleepMs : Nat
deriving DecidableEq

/-- The retry loop of `calculateEmissions` (part_001 lines 94-119).
`oracle i` is the outcome of the call made in iteration `retryCount = i`;
`calls` and `sleepMs` accumulate the number of calls made and the total
backoff wait so far. -/
def retryGo (oracle : Nat → CallResult) (retryCount calls sleepMs : Nat) :
    RetryTrace :=
  if _h : retryCount < MAX_RETRIES then
    match oracle retryCount with
    | .errStatus d => ⟨.returnedErr d, calls + 1, sleepMs⟩
    | .errTransient d =>
      if retryCount < MAX_RETRIES - 1 then
        retryGo oracle (retryCount + 1) (calls + 1) (sleepMs + 500)
      else
        ⟨.returnedErr d, calls + 1, sleepMs⟩
    | .okResp res => ⟨.brokeOk res, calls + 1, sleepMs⟩
  else ⟨.exhausted, calls, sleepMs⟩
termination_by MAX_RETRIES - retryCount

/-- The post-loop processing of a successful response (part_001 lines
121-153): absence of `mass` yields an all-empty success with an absent score;
otherwise `exchangeRate` defaults to 1 and
`factorIntensity = co2E * exchangeRate`. -/
def calcSuccess (currency : String) (res : TransactionEmissionEstimate) :
    EmissionsResult :=
  match res.massAmount with
  | none =>
    { emissionsTCo2 := ""
      emissionFactorName := ""
      emissionFactorSource := ""
      emissionFactorIntensity := ""
      emissionFactorNumeratorUnit := ""
      emissionFactorDenominatorUnit := ""
      requestedCurrency := currency
      exchangeRate := ""
      score := none
      dashboardUrl := "" }
  | some massAmount =>
    let exchangeRate : ℚ := res.exchangeRate.getD 1
    let intensity : ℚ := res.co2E * exchangeRate
    { emissionsTCo2 := massAmount
      emissionFactorName := res.emissionFactorName
      emissionFactorSource := res.emissionFactorSource
      emissionFactorIntensity := numToString intensity
      emissionFactorNumeratorUnit := res.emissionFactorNumeratorUnit
      emissionFactorDenominatorUnit := res.emissionFactorDenominatorUnit
      requestedCurrency := currency
      exchangeRate := numToString exchangeRate
      score := res.searchTermMatchScore
      dashboardUrl := dashboardUrl res.id }

/-- Trace of one `calculateEmissions` invocation: the returned `Result`
(`none` for the impossible loop fall-through), the number of underlying
calls, and the total backoff wait in milliseconds. -/
structure CalcTrace where
  result : Option (TSResult EmissionsResult String)
  calls : Nat
  sleepMs : Nat
deriving DecidableEq

/-- `calculateEmissions` (part_001 lines 50-154), instrumented with call and
wait counters. -/
def calculateEmissions (oracle : Nat → CallResult) (currency : String) :
    CalcTrace :=
  let t := retryGo oracle 0 0 0
  match t.exit with
  | .brokeOk res => ⟨some (.ok (calcSuccess currency res)), t.calls, t.sleepMs⟩
  | .returnedErr d => ⟨some (.err d), t.calls, t.sleepMs⟩
  | .exhausted => ⟨none, t.calls, t.sleepMs⟩

lemma retryGo_transient_then_ok (oracle : Nat → CallResult)
    (res : TransactionEmissionEstimate) (k : Nat)
    (htrans : ∀ i, i < k → (oracle i).isTransient = true)
    (hk : k < MAX_RETRIES) (hok : oracle k = CallResult.okResp res) :
    ∀ n j calls sleepMs, j + n = k →
      retryGo oracle j calls sleepMs =
        ⟨LoopExit.brokeOk res, calls + n + 1, sleepMs + 500 * n⟩ := by
  intro n
  induction n with
  | zero =>
    intro j calls sleepMs hj
    have hj' : j = k := by omega
    subst hj'
    rw [retryGo]
    simp only [hk, dif_pos, hok]
    congr 1 <;> omega
  | succ m ih =>
    intro j calls sleepMs hj
    have hjk : j < k := by omega
    have htr : (oracle j).isTransient = true := htrans j hjk
    obtain ⟨d, hd⟩ : ∃ d, oracle j = CallResult.errTransient d := by
      cases hor : oracle j <;> simp [hor, CallResult.isTransient] at htr ⊢
    have hjlt : j < MAX_RETRIES := by omega
    have hjlt1 : j < MAX_RETRIES - 1 := by
      simp only [MAX_RETRIES] at hk ⊢
      omega
    rw [retryGo]
    simp only [hjlt, dif_pos, hd, hjlt1, if_pos]
    rw [ih (j + 1) (calls + 1) (sleepMs + 500) (by omega)]
    congr 1 <;> omega

lemma retryGo_all_transient (oracle : Nat → CallResult)
    (htrans : ∀ i, i < MAX_RETRIES → (oracle i).isTransient = true) :
    ∀ n j calls sleepMs, j + n + 1 = MAX_RETRIES →
      retryGo oracle j calls sleepMs =
        ⟨LoopExit.returnedErr (oracle (MAX_RETRIES - 1)).desc,
          calls + n + 1, sleepMs + 500 * n⟩ := by
  intro n
  induction n with
  | zero =>
    intro j calls sleepMs hj
    have hj' : j = MAX_RETRIES - 1 := by omega
    subst hj'
    have hjlt : MAX_RETRIES - 1 < MAX_RETRIES := by simp [MAX_RETRIES]
    have htr : (oracle (MAX_RETRIES - 1)).isTransient = true :=
      htrans _ hjlt
    obtain ⟨d, hd⟩ :
        ∃ d, oracle (MAX_RETRIES - 1) = CallResult.errTransient d := by
      cases hor : oracle (MAX_RETRIES - 1) <;>
        simp [hor, CallResult.isTransient] at htr ⊢
    rw [retryGo]
    simp only [hjlt, dif_pos, hd, lt_irrefl, if_neg, not_lt, le_refl]
    simp [hd, CallResult.desc]
  | succ m ih =>
    intro j calls sleepMs hj
    have hjlt : j < MAX_RETRIES := by omega
    have htr : (oracle j).isTransient = true := htrans j hjlt
    obtain ⟨d, hd⟩ : ∃ d, oracle j = CallResult.errTransient d := by
      cases hor : oracle j <;> simp [hor, CallResult.isTransient] at htr ⊢
    have hjlt1 : j < MAX_RETRIES - 1 := by omega
    rw [retryGo]
    simp only [hjlt, dif_pos, hd, hjlt1, if_pos]
    rw [ih (j + 1) (calls + 1) (sleepMs + 500) (by omega)]
    congr 1 <;> omega

/-- C1: a candidate whose call fails transiently (no status code) on the
first `k` attempts, `k < 5`, and succeeds on attempt `k`, yields a Success
(`Ok`) outcome after exactly `k + 1` underlying calls with a total fixed
backoff wait of `500 · k` ms (500 ms between consecutive attempts); a
candidate failing transiently on every attempt yields a Failure (`Err`,
carrying the last error's description) after exactly `MAX_RETRIES = 5`
underlying calls. -/
theorem C1_retry_policy (oracle : Nat → CallResult) (currency : String)
    (k : Nat) :
    ((∀ i, i < k → (oracle i).isTransient = true) → k < MAX_RETRIES →
      ∀ res, oracle k = CallResult.okResp res →
        calculateEmissions oracle currency =
          ⟨some (TSResult.ok (calcSuccess currency res)), k + 1, 500 * k⟩)
    ∧ ((∀ i, i < MAX_RETRIES → (oracle i).isTransient = true) →
        calculateEmissions oracle currency =
          ⟨some (TSResult.err ((oracle (MAX_RETRIES - 1)).desc)),
            MAX_RETRIES, 500 * (MAX_RETRIES - 1)⟩) := by
  constructor
  · intro htrans hk res hok
    unfold calculateEmissions
    rw [retryGo_transient_then_ok oracle res k htrans hk hok k 0 0 0
      (by omega)]
    simp
  · intro htrans
    unfold calculateEmissions
    rw [retryGo_all_transient oracle htrans (MAX_RETRIES - 1) 0 0 0
      (by simp [MAX_RETRIES])]
    simp [MAX_RETRIES]

/-- A success response with no `mass`, used to exercise the theorems on
concrete inputs. -/
def noMassEstimate : TransactionEmissionEstimate :=
  { massAmount := none
    emissionFactorName := ""
    emissionFactorSource := ""
    emissionFactorNumeratorUnit := ""
    emissionFactorDenominatorUnit := ""
    co2E := 0
    exchangeRate := none
    searchTermMatchScore := none
    id := "est-1" }

theorem C1_retry_policy_witness :
    calculateEmissions
        (fun i => if i < 2 then CallResult.errTransient "boom"
          else CallResult.okResp noMassEstimate) "USD" =
      ⟨some (TSResult.ok (calcSuccess "USD" noMassEstimate)), 3, 1000⟩
    ∧ calculateEmissions (fun _ => CallResult.errTransient "down") "USD" =
      ⟨some (TSResult.err "down"), 5, 2000⟩ := by
  constructor
  · have h :=
      (C1_retry_policy
        (fun i => if i < 2 then CallResult.errTransient "boom"
          else CallResult.okResp noMassEstimate) "USD" 2).1
        (by
          intro i hi
          simp only [if_pos hi, CallResult.isTransient])
        (by decide) noMassEstimate (by simp)
    simpa using h
  · have h :=
      (C1_retry_policy (fun _ => CallResult.errTransient "down") "USD" 0).2
        (by intro i _; simp [CallResult.isTransient])
    simpa [MAX_RETRIES, CallResult.desc] using h

/-- C5: a candidate whose first call fails with a server-assigned status
code yields a Failure (`Err`) after exactly one underlying call, with no
retry and no backoff wait. -/
theorem C5_status_error_no_retry (oracle : Nat → CallResult)
    (currency d : String) (h : oracle 0 = CallResult.errStatus d) :
    calculateEmissions oracle currency = ⟨some (TSResult.err d), 1, 0⟩ := by
  unfold calculateEmissions
  rw [retryGo]
  simp [MAX_RETRIES, h]

theorem C5_status_error_no_retry_witness :
    calculateEmissions (fun _ => CallResult.errStatus "rejected") "USD" =
      ⟨some (TSResult.err "rejected"), 1, 0⟩ :=
  C5_status_error_no_retry (fun _ => CallResult.errStatus "rejected")
    "USD" "rejected" rfl

/-- One candidate interpretation of a record: a search term paired with an
optional category. -/
structure Candidate where
  searchTerm : String
  category : Option String
deriving DecidableEq

/-- `searchCategoryPermutations` (part_001 lines 159-170): nested loops with
the search terms on the outside. -/
def searchCategoryPermutations (searchTerms : List String)
    (categories : List (Option String)) : List Candidate :=
  searchTerms.flatMap
    (fun searchTerm => categories.map (fun category => ⟨searchTerm, category⟩))

/-- The category substitution in `main` (part_001 lines 239-241): an empty
category-column list is replaced by the single absent category
`[undefined]`. -/
def effectiveCategories (categories : List String) : List (Option String) :=
  if categories.length ≠ 0 then categories.map some else [none]

lemma searchCategoryPermutations_length (searchTerms : List String)
    (categories : List (Option String)) :
    (searchCategoryPermutations searchTerms categories).length =
      searchTerms.length * categories.length := by
  induction searchTerms with
  | nil => simp [searchCategoryPermutations]
  | cons s rest ih =>
    simp only [searchCategoryPermutations, List.flatMap_cons,
      List.length_append, List.length_map, List.length_cons] at ih ⊢
    rw [ih]
    ring

lemma searchCategoryPermutations_getElem? (searchTerms : List String)
    (categories : List (Option String)) :
    ∀ a b (ha : a < searchTerms.length) (hb : b < categories.length),
      (searchCategoryPermutations searchTerms
          categories)[a * categories.length + b]? =
        some ⟨searchTerms[a], categories[b]⟩ := by
  induction searchTerms with
  | nil =>
    intro a b ha _
    simp at ha
  | cons s rest ih =>
    intro a b ha hb
    rcases a with _ | a'
    · simp only [searchCategoryPermutations, List.flatMap_cons,
        Nat.zero_mul, Nat.zero_add]
      rw [List.getElem?_append]
      simp [List.getElem?_eq_getElem, hb]
    · have ha' : a' < rest.length := by simpa using ha
      simp only [searchCategoryPermutations, List.flatMap_cons]
      rw [List.getElem?_append_right
        (by simp only [List.length_map, Nat.succ_mul]; omega)]
      simp only [List.length_map]
      rw [show (a' + 1) * categories.length + b - categories.length =
        a' * categories.length + b by rw [Nat.succ_mul]; omega]
      rw [List.getElem_cons_succ]
      exact ih a' b ha' hb

/-- C4: for a non-empty search-term list of size `S` paired with a
category-value list of size `C ≥ 0` (an empty list being replaced by the
single absent category), the generator yields exactly `S * max 1 C`
candidates, in search-term-major, category-minor order: the candidate at
position `a * C' + b` (with `C'` the effective category count) pairs the
`a`-th search term with the `b`-th effective category. -/
theorem C4_permutation_count_and_order (searchTerms : List String)
    (categories : List String) (hne : searchTerms ≠ []) :
    (searchCategoryPermutations searchTerms
        (effectiveCategories categories)).length =
      searchTerms.length * max 1 categories.length
    ∧ ∀ a b (ha : a < searchTerms.length)
        (hb : b < (effectiveCategories categories).length),
        (searchCategoryPermutations searchTerms
            (effectiveCategories
              categories))[a * (effectiveCategories categories).length
                + b]? =
          some ⟨searchTerms[a], (effectiveCategories categories)[b]⟩ := by
  refine ⟨?_, ?_⟩
  · rw [searchCategoryPermutations_length]
    rcases categories with _ | ⟨c, cs⟩
    · simp [effectiveCategories]
    · simp [effectiveCategories]
  · intro a b ha hb
    exact searchCategoryPermutations_getElem? searchTerms
      (effectiveCategories categories) a b ha hb

theorem C4_permutation_count_and_order_witness :
    (searchCategoryPermutations ["alpha", "beta"]
        (effectiveCategories ["food"])).length = 2 * max 1 1
    ∧ (searchCategoryPermutations ["alpha", "beta"]
          (effectiveCategories
            ["food"]))[1 * (effectiveCategories ["food"]).length + 0]? =
        some ⟨"beta", some "food"⟩ := by
  have h := C4_permutation_count_and_order ["alpha", "beta"] ["food"]
    (by decide)
  refine ⟨h.1, ?_⟩
  have h2 := h.2 1 0 (by decide) (by decide)
  simpa using h2

/-- A per-candidate merged entry as accumulated in `permutationsResults`
(part_001 lines 248-261). -/
structure PermutationResult where
  name : String
  emissions : String
  source : String
  url : String
  searchTermUsed : String
  categoryUsed : String
  score : Option ℚ
  exchangeRate : String
  emissionFactorNumeratorUnit : String
  emissionFactorDenominatorUnit : String
  emissionFactorIntensity : String
  requestedCurrency : String
deriving DecidableEq

/-- The body of the per-candidate task (part_001 lines 266-320): an `Err`
outcome is recorded with the error text in place of the factor name, every
other field empty and a `null` score (note: `searchTermUsed` and
`categoryUsed` are the empty string, not the candidate's fields); an `Ok`
outcome copies the result fields and the originating candidate. -/
def permutationEntry (searchTerm : String) (category : Option String)
    (result : TSResult EmissionsResult String) : PermutationResult :=
  match result with
  | .err e =>
    { name := "Error: " ++ e
      emissions := ""
      source := ""
      url := ""
      searchTermUsed := ""
      categoryUsed := ""
      score := none
      exchangeRate := ""
      emissionFactorNumeratorUnit := ""
      emissionFactorDenominatorUnit := ""
      emissionFactorIntensity := ""
      requestedCurrency := "" }
  | .ok f =>
    { name := f.emissionFactorName
      emissions := f.emissionsTCo2
      source := f.emissionFactorSource
      url := f.dashboardUrl
      searchTermUsed := searchTerm
      categoryUsed := category.getD ""
      score := f.score
      exchangeRate := f.exchangeRate
      emissionFactorNumeratorUnit := f.emissionFactorNumeratorUnit
      emissionFactorDenominatorUnit := f.emissionFactorDenominatorUnit
      emissionFactorIntensity := f.emissionFactorIntensity
      requestedCurrency := f.requestedCurrency }

/-- C7 counterexample: the merged entry for a failed candidate does NOT carry
the originating search term and category — the code records empty strings
for both (part_001 lines 281-282). -/
theorem C7_counterexample :
    ¬ ((permutationEntry "Coffee" (some "Drinks")
          (TSResult.err "boom")).searchTermUsed = "Coffee"
        ∧ (permutationEntry "Coffee" (some "Drinks")
            (TSResult.err "boom")).categoryUsed = "Drinks") := by
  decide

/-- C7 (amended): the merged entry for a failed candidate is unscored and
empty-fielded with the error text in place of the factor name, but its
`Search term used` and `Category used` fields are the empty string — they do
not reflect the candidate that produced the failure. -/
theorem C7_failure_entry (searchTerm : String) (category : Option String)
    (e : String) :
    (permutationEntry searchTerm category (TSResult.err e)).name =
        "Error: " ++ e
    ∧ (permutationEntry searchTerm category (TSResult.err e)).score = none
    ∧ (permutationEntry searchTerm category (TSResult.err e)).emissions = ""
    ∧ (permutationEntry searchTerm category (TSResult.err e)).source = ""
    ∧ (permutationEntry searchTerm category (TSResult.err e)).url = ""
    ∧ (permutationEntry searchTerm category
        (TSResult.err e)).searchTermUsed = ""
    ∧ (permutationEntry searchTerm category
        (TSResult.err e)).categoryUsed = "" := by
  simp [permutationEntry]

/-- Whether an entry carries a numeric match score (the `withConfidence`
filter of part_001 lines 329-331; `null` and `undefined` are both `none`). -/
def hasScore (r : PermutationResult) : Bool := r.score.isSome

/-- The sort comparator `(a, b) => a.score! - b.score!` (part_001 lines
333-335): ascending numeric order on the (always present) scores.  `getD 0`
is only ever applied to present scores. -/
def scoreLe (a b : PermutationResult) : Bool :=
  decide (a.score.getD 0 ≤ b.score.getD 0)

/-- The ranking policy (part_001 lines 326-337): partition into entries with
and without a score, stably sort the scored ones ascending (JS
`Array.prototype.sort` is stable, as is `List.mergeSort`), and append the
unscored ones in their original order. -/
def rankResults (rs : List PermutationResult) : List PermutationResult :=
  (rs.filter hasScore).mergeSort scoreLe
    ++ rs.filter (fun r => !hasScore r)

/-- Rank-indexed column-name rendering: `base (idx)`. -/
def colName (base : String) (idx : Nat) : String :=
  base ++ " (" ++ toString idx ++ ")"

/-- `score ? `${score}` : ''` (part_001 line 365) under JS truthiness:
`null`, `undefined` and `0` all render as the empty string. -/
def renderScore (s : Option ℚ) : String :=
  match s with
  | none => ""
  | some q => if q = 0 then "" else numToString q

/-- The eleven per-rank output columns (part_001 lines 356-369). -/
def outputColumns (idx : Nat) (r : PermutationResult) :
    List (String × String) :=
  [ (colName "Emissions (tCO2e)" idx, r.emissions),
    (colName "Emission factor name" idx, r.name),
    (colName "Emission factor source" idx, r.source),
    (colName "Emission factor intensity" idx, r.emissionFactorIntensity),
    (colName "Emission factor intensity unit" idx,
      r.emissionFactorNumeratorUnit ++ "CO2e/" ++ r.requestedCurrency),
    (colName "Emission factor original unit" idx,
      r.emissionFactorNumeratorUnit ++ "CO2e/"
        ++ r.emissionFactorDenominatorUnit),
    (colName "Exchange rate" idx, r.exchangeRate),
    (colName "Confidence score" idx, renderScore r.score),
    (colName "Dashboard URL" idx, r.url),
    (colName "Search term used" idx, r.searchTermUsed),
    (colName "Category used" idx, r.categoryUsed) ]

/-- The `resultObj` reduce (part_001 lines 339-372): each ranked entry is
assigned the 1-based rank `idx = i + 1` of its position. -/
def resultColumns (rs : List PermutationResult) :
    List (Nat × PermutationResult) :=
  List.enumFrom 1 (rankResults rs)

/-- The flattened merged columns of one output row. -/
def resultObj (rs : List PermutationResult) : List (String × String) :=
  (resultColumns rs).flatMap (fun p => outputColumns p.1 p.2)

lemma scoreLe_trans : ∀ a b c, scoreLe a b = true → scoreLe b c = true →
    scoreLe a c = true := by
  intro a b c hab hbc
  simp only [scoreLe, decide_eq_true_eq] at hab hbc ⊢
  exact le_trans hab hbc

lemma scoreLe_total : ∀ a b, (scoreLe a b || scoreLe b a) = true := by
  intro a b
  simp only [scoreLe, Bool.or_eq_true, decide_eq_true_eq]
  exact le_total _ _

lemma length_filter_add_not {α : Type} (p : α → Bool) (l : List α) :
    (l.filter p).length + (l.filter (fun r => !p r)).length = l.length := by
  induction l with
  | nil => simp
  | cons x xs ih =>
    cases hx : p x <;> simp [List.filter_cons, hx] <;> omega

lemma rankResults_length (rs : List PermutationResult) :
    (rankResults rs).length = rs.length := by
  rw [rankResults, List.length_append,
    (List.mergeSort_perm (rs.filter hasScore) scoreLe).length_eq]
  exact length_filter_add_not hasScore rs

/-- C2: the ranked sequence is a sorted-by-non-decreasing-score permutation
of the scored entries (a prefix of length equal to the number of entries
with a defined score) followed by the unscored entries in their original
order; the assigned rank of each entry is its 1-based position in this
concatenation. -/
theorem C2_ranking_policy (rs : List PermutationResult) :
    ((rankResults rs).take ((rs.filter hasScore).length)).Pairwise
        (fun a b => a.score.getD 0 ≤ b.score.getD 0)
    ∧ ((rankResults rs).take ((rs.filter hasScore).length)).Perm
        (rs.filter hasScore)
    ∧ (rankResults rs).drop ((rs.filter hasScore).length) =
        rs.filter (fun r => !hasScore r)
    ∧ (resultColumns rs).map Prod.fst = List.range' 1 rs.length := by
  have hperm := List.mergeSort_perm (rs.filter hasScore) scoreLe
  have hlen : ((rs.filter hasScore).mergeSort scoreLe).length =
      (rs.filter hasScore).length := hperm.length_eq
  have htake : (rankResults rs).take ((rs.filter hasScore).length) =
      (rs.filter hasScore).mergeSort scoreLe :=
    List.take_left' hlen
  refine ⟨?_, ?_, ?_, ?_⟩
  · rw [htake]
    have hs := List.sorted_mergeSort scoreLe_trans scoreLe_total
      (rs.filter hasScore)
    exact hs.imp (fun h => by simpa [scoreLe] using h)
  · rw [htake]
    exact hperm
  · rw [rankResults]
    exact List.drop_left' hlen
  · rw [resultColumns, List.enumFrom_map_fst, rankResults_length]

/-- The per-record candidate fan-out (part_001 lines 263-324): every
candidate's estimation result is recorded as exactly one entry; the shared
accumulation array is modelled as the corresponding map (one slot per
candidate). -/
def rowResults (candidates : List Candidate)
    (estimate : Candidate → TSResult EmissionsResult String) :
    List PermutationResult :=
  candidates.map
    (fun c => permutationEntry c.searchTerm c.category (estimate c))

/-- C8: for a record with `N` candidates, exactly one outcome per candidate
enters the ranking (never zero, never more than one), and the merged
output's assigned ranks are exactly `1, 2, ..., N` — no gaps, no
duplicates. -/
theorem C8_one_outcome_per_candidate (candidates : List Candidate)
    (estimate : Candidate → TSResult EmissionsResult String) :
    (rowResults candidates estimate).length = candidates.length
    ∧ (rankResults (rowResults candidates estimate)).length =
        candidates.length
    ∧ (resultColumns (rowResults candidates estimate)).map Prod.fst =
        List.range' 1 candidates.length := by
  have hlen : (rowResults candidates estimate).length =
      candidates.length := by
    simp [rowResults]
  refine ⟨hlen, ?_, ?_⟩
  · rw [rankResults_length, hlen]
  · rw [resultColumns, List.enumFrom_map_fst, rankResults_length, hlen]

/-- C9: an outcome whose match score is exactly 0 lands in the scored
partition (hence in the sorted prefix, ahead of every unscored outcome), and
when all defined scores are non-negative a zero-scored outcome sorts to the
very front (the head of the ranked sequence carries score 0) — yet its
rendered `Confidence score` column is the empty string, identical to the
rendering of an absent score. -/
theorem C9_zero_score_ranked_first_but_rendered_empty
    (rs : List PermutationResult) (r : PermutationResult) (hmem : r ∈ rs)
    (hscore : r.score = some 0)
    (hnonneg : ∀ x ∈ rs, ∀ q : ℚ, x.score = some q → 0 ≤ q) :
    r ∈ (rankResults rs).take ((rs.filter hasScore).length)
    ∧ (∃ hd, (rankResults rs).head? = some hd ∧ hd.score = some 0)
    ∧ renderScore r.score = "" ∧ renderScore none = "" := by
  have hperm := List.mergeSort_perm (rs.filter hasScore) scoreLe
  have hlen : ((rs.filter hasScore).mergeSort scoreLe).length =
      (rs.filter hasScore).length := hperm.length_eq
  have htake : (rankResults rs).take ((rs.filter hasScore).length) =
      (rs.filter hasScore).mergeSort scoreLe :=
    List.take_left' hlen
  have hrf : r ∈ rs.filter hasScore :=
    List.mem_filter.mpr ⟨hmem, by simp [hasScore, hscore]⟩
  have hrs : r ∈ (rs.filter hasScore).mergeSort scoreLe :=
    hperm.mem_iff.mpr hrf
  refine ⟨htake ▸ hrs, ?_, ?_, rfl⟩
  · obtain ⟨hd, tl, heq⟩ :=
      List.exists_cons_of_ne_nil (List.ne_nil_of_mem hrs)
    refine ⟨hd, ?_, ?_⟩
    · rw [rankResults, heq]
      rfl
    · have hhd : hd ∈ (rs.filter hasScore).mergeSort scoreLe := by
        rw [heq]
        exact List.mem_cons_self hd tl
      have hhdf := hperm.mem_iff.mp hhd
      have hhdrs : hd ∈ rs := (List.mem_filter.mp hhdf).1
      have hhds : hasScore hd = true := (List.mem_filter.mp hhdf).2
      obtain ⟨q, hq⟩ := Option.isSome_iff_exists.mp hhds
      have hq0 : 0 ≤ q := hnonneg hd hhdrs q hq
      have hsorted := List.sorted_mergeSort scoreLe_trans scoreLe_total
        (rs.filter hasScore)
      rw [heq, List.pairwise_cons] at hsorted
      have hle : q ≤ 0 := by
        rcases List.mem_cons.mp (heq ▸ hrs) with rfl | hrtl
        · rw [hq] at hscore
          simp only [Option.some_inj] at hscore
          exact le_of_eq hscore
        · have := hsorted.1 r hrtl
          simp only [scoreLe, decide_eq_true_eq, hq, hscore,
            Option.getD_some] at this
          exact this
      have hq00 : q = 0 := le_antisymm hle hq0
      rw [hq, hq00]
  · rw [hscore]
    simp [renderScore]

/-- A success result carrying a match score of exactly 0, used to exercise
the theorems on concrete inputs. -/
def zeroScoreResult : EmissionsResult :=
  { emissionsTCo2 := "0.001"
    emissionFactorName := "Coffee shops"
    emissionFactorSource := "src"
    emissionFactorIntensity := "1"
    emissionFactorNumeratorUnit := "kg"
    emissionFactorDenominatorUnit := "EUR"
    requestedCurrency := "USD"
    exchangeRate := "1"
    score := some 0
    dashboardUrl := "url" }

theorem C9_zero_score_witness :
    (permutationEntry "Coffee" none (TSResult.ok zeroScoreResult)) ∈
      (rankResults [permutationEntry "Coffee" none
          (TSResult.ok zeroScoreResult),
        permutationEntry "Tea" none (TSResult.err "boom")]).take
        (([permutationEntry "Coffee" none (TSResult.ok zeroScoreResult),
          permutationEntry "Tea" none
            (TSResult.err "boom")].filter hasScore).length)
    ∧ (∃ hd,
        (rankResults [permutationEntry "Coffee" none
            (TSResult.ok zeroScoreResult),
          permutationEntry "Tea" none (TSResult.err "boom")]).head? =
          some hd ∧ hd.score = some 0)
    ∧ renderScore (permutationEntry "Coffee" none
        (TSResult.ok zeroScoreResult)).score = ""
    ∧ renderScore none = "" := by
  refine C9_zero_score_ranked_first_but_rendered_empty _ _
    (by simp) rfl ?_
  intro x hx q hq
  simp only [List.mem_cons, List.not_mem_nil, or_false] at hx
  rcases hx with rfl | rfl
  · have : some (0 : ℚ) = some q := by
      simpa [permutationEntry, zeroScoreResult] using hq
    simp only [Option.some_inj] at this
    rw [← this]
  · simp [permutationEntry] at hq

/-- JS `String.prototype.trim` on the character list: strip leading and
trailing whitespace. -/
def trimChars (cs : List Char) : List Char :=
  ((cs.dropWhile Char.isWhitespace).reverse.dropWhile
    Char.isWhitespace).reverse

/-- The monetary-amount normalization of `main` (part_001 line 242):
`row[monetaryAmountColumn].trim().replace(/,/g, '')` — trim, then delete
every comma.  Modelled on the string's character list. -/
def normalizeAmount (s : String) : String :=
  String.mk ((trimChars s.data).filter (fun c => c ≠ ','))

/-- C6 counterexample: the normalization does not turn `"10,00"` into
`"10.00"` — it deletes the comma outright, yielding `"1000"`. -/
theorem C6_counterexample : normalizeAmount "10,00" ≠ "10.00" := by
  decide

/-- C6 (amended): normalization trims the amount and strips every comma
(thousands separator) from it; a fractional part written with a decimal dot
is preserved, but a comma used as a decimal separator is deleted, so
`"10,00"` becomes `"1000"`, not `"10.00"`. -/
theorem C6_amount_normalization :
    normalizeAmount "10,00" = "1000"
    ∧ normalizeAmount " 1,000.50 " = "1000.50"
    ∧ normalizeAmount " 10.00 " = "10.00" := by
  decide

/-- One pass of the driver's accumulate-and-flush loop (part_001 lines
374-391), abstracted over the row type: `i` is the 0-based index of the row
about to be appended, `out` the rows accumulated since the last flush, `C`
the `outputFileRows` chunk limit.  Returns the flushed chunk files as
(numeric filename suffix, rows) pairs.  `rest.isEmpty` holds exactly when
`i = totalRows - 1`; the trailing-flush suffix `Math.ceil(i / C)` is
`(i + C - 1) / C`, the boundary-flush suffix `Math.floor(i / C)` is
`i / C`. -/
def driverGo {α : Type} (C : Nat) : Nat → List α → List α →
    List (Nat × List α)
  | _, _, [] => []
  | i, out, r :: rest =>
    if ((i + 1) % C = 0 ∧ i ≠ 0) ∨ rest.isEmpty = true then
      (if rest.isEmpty = true then (i + C - 1) / C else i / C,
          out ++ [r]) ::
        driverGo C (i + 1) [] rest
    else
      driverGo C (i + 1) (out ++ [r]) rest

/-- The whole-run chunked write: the driver loop started at row 0 with an
empty accumulator. -/
def driverLoop {α : Type} (C : Nat) (rows : List α) :
    List (Nat × List α) :=
  driverGo C 0 [] rows

lemma driverGo_cons {α : Type} (C i : Nat) (out : List α) (r : α)
    (rest : List α) :
    driverGo C i out (r :: rest) =
      if ((i + 1) % C = 0 ∧ i ≠ 0) ∨ rest.isEmpty = true then
        (if rest.isEmpty = true then (i + C - 1) / C else i / C,
            out ++ [r]) ::
          driverGo C (i + 1) [] rest
      else driverGo C (i + 1) (out ++ [r]) rest := rfl

lemma isEmpty_cons_false {α : Type} (r2 : α) (tail2 : List α) :
    ¬((r2 :: tail2).isEmpty = true) := by simp

lemma driverGo_flatten {α : Type} (C : Nat) :
    ∀ (rest : List α) (i : Nat) (out : List α), rest ≠ [] →
      ((driverGo C i out rest).map Prod.snd).flatten = out ++ rest := by
  intro rest
  induction rest with
  | nil =>
    intro i out h
    exact absurd rfl h
  | cons r tail ih =>
    intro i out _
    rcases tail with _ | ⟨r2, tail2⟩
    · simp [driverGo_cons, driverGo]
    · by_cases hb : (i + 1) % C = 0 ∧ i ≠ 0
      · rw [driverGo_cons, if_pos (Or.inl hb),
          if_neg (isEmpty_cons_false r2 tail2)]
        simp only [List.map_cons, List.flatten_cons]
        rw [ih (i + 1) [] (by simp)]
        simp
      · rw [driverGo_cons,
          if_neg (by simp only [List.isEmpty_cons]; tauto)]
        rw [ih (i + 1) (out ++ [r]) (by simp)]
        simp

lemma driverGo_ne_nil {α : Type} (C : Nat) :
    ∀ (rest : List α) (i : Nat) (out : List α), rest ≠ [] →
      driverGo C i out rest ≠ [] := by
  intro rest
  induction rest with
  | nil =>
    intro i out h
    exact absurd rfl h
  | cons r tail ih =>
    intro i out _
    rcases tail with _ | ⟨r2, tail2⟩
    · simp [driverGo_cons, driverGo]
    · by_cases hb : (i + 1) % C = 0 ∧ i ≠ 0
      · rw [driverGo_cons, if_pos (Or.inl hb)]
        simp
      · rw [driverGo_cons,
          if_neg (by simp only [List.isEmpty_cons]; tauto)]
        exact ih (i + 1) (out ++ [r]) (by simp)

lemma mod_succ_full {i C : Nat} (hC : 2 ≤ C) (h : (i + 1) % C = 0) :
    i % C + 1 = C := by
  have hm : i % C < C := Nat.mod_lt _ (by omega)
  rcases Nat.lt_or_ge (i % C + 1) C with hlt | hge
  · exfalso
    rw [Nat.add_mod, Nat.mod_eq_of_lt (show (1 : Nat) < C by omega),
      Nat.mod_eq_of_lt hlt] at h
    omega
  · omega

lemma mod_succ_not_full {i C : Nat} (hC : 2 ≤ C)
    (h : ¬((i + 1) % C = 0 ∧ i ≠ 0)) : i % C + 1 = (i + 1) % C := by
  have hm : i % C < C := Nat.mod_lt _ (by omega)
  have hstep : (i + 1) % C = (i % C + 1) % C := by
    rw [Nat.add_mod, Nat.mod_eq_of_lt (show (1 : Nat) < C by omega)]
  rcases eq_or_ne i 0 with rfl | hi0
  · simp [Nat.mod_eq_of_lt (show (1 : Nat) < C by omega)]
  · have hnz : (i + 1) % C ≠ 0 := fun hz => h ⟨hz, hi0⟩
    rcases Nat.lt_or_ge (i % C + 1) C with hlt | hge
    · rw [hstep, Nat.mod_eq_of_lt hlt]
    · exfalso
      have hfull : i % C + 1 = C := by omega
      rw [hstep, hfull, Nat.mod_self] at hnz
      exact hnz rfl

lemma driverGo_length {α : Type} (C : Nat) (hC : 2 ≤ C) :
    ∀ (rest : List α) (i : Nat) (out : List α), rest ≠ [] →
      out.length = i % C →
      (driverGo C i out rest).length =
        (out.length + rest.length + C - 1) / C := by
  intro rest
  induction rest with
  | nil =>
    intro i out h
    exact absurd rfl h
  | cons r tail ih =>
    intro i out _ hout
    have hm : i % C < C := Nat.mod_lt _ (by omega)
    rcases tail with _ | ⟨r2, tail2⟩
    · rw [driverGo_cons, if_pos (Or.inr (by simp))]
      simp only [List.length_cons, List.length_nil, driverGo]
      rw [show out.length + (0 + 1) + C - 1 = out.length + C by omega,
        Nat.add_div_right _ (by omega),
        Nat.div_eq_of_lt (by omega)]
    · by_cases hb : (i + 1) % C = 0 ∧ i ≠ 0
      · have hfull : i % C + 1 = C := mod_succ_full hC hb.1
        rw [driverGo_cons, if_pos (Or.inl hb)]
        simp only [List.length_cons]
        rw [ih (i + 1) [] (by simp) (by simp [hb.1])]
        simp only [List.length_nil, Nat.zero_add, List.length_cons]
        rw [show out.length + (tail2.length + 1 + 1) + C - 1 =
          ((tail2.length + 1) + C - 1) + C by omega,
          Nat.add_div_right _ (by omega)]
      · have hnext : (out ++ [r]).length = (i + 1) % C := by
          simp only [List.length_append, List.length_cons,
            List.length_nil, hout]
          exact mod_succ_not_full hC hb
        rw [driverGo_cons,
          if_neg (by simp only [List.isEmpty_cons]; tauto)]
        rw [ih (i + 1) (out ++ [r]) (by simp) hnext]
        congr 1
        simp only [List.length_append, List.length_cons,
          List.length_nil]
        omega

lemma driverGo_dropLast_length {α : Type} (C : Nat) (hC : 2 ≤ C) :
    ∀ (rest : List α) (i : Nat) (out : List α), out.length = i % C →
      ∀ f ∈ (driverGo C i out rest).dropLast, (Prod.snd f).length = C := by
  intro rest
  induction rest with
  | nil =>
    intro i out _ f hf
    simp [driverGo] at hf
  | cons r tail ih =>
    intro i out hout f hf
    rcases tail with _ | ⟨r2, tail2⟩
    · rw [driverGo_cons, if_pos (Or.inr (by simp))] at hf
      simp [driverGo] at hf
    · by_cases hb : (i + 1) % C = 0 ∧ i ≠ 0
      · have hfull : i % C + 1 = C := mod_succ_full hC hb.1
        rw [driverGo_cons, if_pos (Or.inl hb)] at hf
        rw [List.dropLast_cons_of_ne_nil
          (driverGo_ne_nil C (r2 :: tail2) (i + 1) [] (by simp))] at hf
        rcases List.mem_cons.mp hf with rfl | hf2
        · simp only [List.length_append, List.length_cons,
            List.length_nil, hout]
          omega
        · exact ih (i + 1) [] (by simp [hb.1]) f hf2
      · have hnext : (out ++ [r]).length = (i + 1) % C := by
          simp only [List.length_append, List.length_cons,
            List.length_nil, hout]
          exact mod_succ_not_full hC hb
        rw [driverGo_cons,
          if_neg (by simp only [List.isEmpty_cons]; tauto)] at hf
        exact ih (i + 1) (out ++ [r]) hnext f hf

lemma driverGo_suffix_lower_bound {α : Type} (C : Nat) (hC : 1 ≤ C) :
    ∀ (rest : List α) (i : Nat) (out : List α),
      ∀ s ∈ (driverGo C i out rest).map Prod.fst, i / C ≤ s := by
  intro rest
  induction rest with
  | nil =>
    intro i out s hs
    simp [driverGo] at hs
  | cons r tail ih =>
    intro i out s hs
    have hmono : i / C ≤ (i + 1) / C := Nat.div_le_div_right (by omega)
    rcases tail with _ | ⟨r2, tail2⟩
    · rw [driverGo_cons, if_pos (Or.inr (by simp))] at hs
      simp only [List.isEmpty_nil, if_pos, List.map_cons,
        List.mem_cons] at hs
      rcases hs with rfl | hs2
      · exact Nat.div_le_div_right (by omega)
      · simp [driverGo] at hs2
    · by_cases hb : (i + 1) % C = 0 ∧ i ≠ 0
      · rw [driverGo_cons, if_pos (Or.inl hb),
          if_neg (isEmpty_cons_false r2 tail2)] at hs
        simp only [List.map_cons, List.mem_cons] at hs
        rcases hs with rfl | hs2
        · exact le_refl _
        · exact le_trans hmono (ih (i + 1) [] s hs2)
      · rw [driverGo_cons,
          if_neg (by simp only [List.isEmpty_cons]; tauto)] at hs
        exact le_trans hmono (ih (i + 1) (out ++ [r]) s hs)

lemma driverGo_suffix_chain {α : Type} (C : Nat) (hC : 1 ≤ C) :
    ∀ (rest : List α) (i : Nat) (out : List α),
      List.Chain' (fun a b => a < b)
        ((driverGo C i out rest).map Prod.fst) := by
  intro rest
  induction rest with
  | nil =>
    intro i out
    simp [driverGo]
  | cons r tail ih =>
    intro i out
    rcases tail with _ | ⟨r2, tail2⟩
    · rw [driverGo_cons, if_pos (Or.inr (by simp))]
      simp [driverGo]
    · by_cases hb : (i + 1) % C = 0 ∧ i ≠ 0
      · rw [driverGo_cons, if_pos (Or.inl hb),
          if_neg (isEmpty_cons_false r2 tail2)]
        simp only [List.map_cons]
        rw [List.chain'_cons']
        refine ⟨?_, ih (i + 1) []⟩
        intro y hy
        have hymem : y ∈ (driverGo C (i + 1) [] (r2 :: tail2)).map
            Prod.fst := List.mem_of_mem_head? hy
        have hylb := driverGo_suffix_lower_bound C hC (r2 :: tail2)
          (i + 1) [] y hymem
        have hdvd : C ∣ (i + 1) := Nat.dvd_of_mod_eq_zero hb.1
        have hlt : i / C < (i + 1) / C := by
          rw [Nat.lt_div_iff_mul_lt hdvd]
          calc C * (i / C) = (i / C) * C := Nat.mul_comm _ _
            _ ≤ i := Nat.div_mul_le_self i C
            _ < i + 1 := by omega
        omega
      · rw [driverGo_cons,
          if_neg (by simp only [List.isEmpty_cons]; tauto)]
        exact ih (i + 1) (out ++ [r])

/-- C3 counterexample: with `chunkSize = 1` and two rows the writer produces
a single chunk file holding both rows (the `i !== 0` guard suppresses the
flush after row 0), not `ceil(2 / 1) = 2` single-row files as claimed. -/
theorem C3_counterexample :
    driverLoop 1 [(0 : Nat), 1] = [(1, [0, 1])]
    ∧ (driverLoop 1 [(0 : Nat), 1]).length ≠ (2 + 1 - 1) / 1 := by
  constructor <;> decide

/-- C3 (amended: chunk size `C ≥ 2`; the claim fails for `C = 1`, see the
counterexample): for `R ≥ 1` rows the writer produces exactly
`ceil(R / C)` chunk files, every chunk except possibly the last holds
exactly `C` rows, the numeric filename suffixes are strictly increasing in
emission order, and the concatenation of the chunks' rows (equivalently, in
ascending-suffix order) reproduces the driver's row-emission order
exactly. -/
theorem C3_chunked_writer {α : Type} (C : Nat) (rows : List α)
    (hC : 2 ≤ C) (hne : rows ≠ []) :
    (driverLoop C rows).length = (rows.length + C - 1) / C
    ∧ (∀ f ∈ (driverLoop C rows).dropLast, (Prod.snd f).length = C)
    ∧ List.Chain' (fun a b => a < b) ((driverLoop C rows).map Prod.fst)
    ∧ ((driverLoop C rows).map Prod.snd).flatten = rows := by
  refine ⟨?_, ?_, ?_, ?_⟩
  · have h := driverGo_length C hC rows 0 [] hne (by simp)
    simpa [driverLoop] using h
  · exact driverGo_dropLast_length C hC rows 0 [] (by simp)
  · exact driverGo_suffix_chain C (by omega) rows 0 []
  · have h := driverGo_flatten C rows 0 [] hne
    simpa [driverLoop] using h

theorem C3_chunked_writer_witness :
    (driverLoop 2 [(10 : Nat), 20, 30]).length = (3 + 2 - 1) / 2
    ∧ (∀ f ∈ (driverLoop 2 [(10 : Nat), 20, 30]).dropLast,
        (Prod.snd f).length = 2)
    ∧ List.Chain' (fun a b => a < b)
        ((driverLoop 2 [(10 : Nat), 20, 30]).map Prod.fst)
    ∧ ((driverLoop 2 [(10 : Nat), 20, 30]).map Prod.snd).flatten =
        [10, 20, 30] :=
  C3_chunked_writer 2 [10, 20, 30] (by decide) (by decide)

/-- The error payload of a `Result` (`""` for `Ok`); used to render the
validation-error join of `passArray`. -/
def TSResult.errText {T : Type} : TSResult T String → String
  | .ok _ => ""
  | .err e => e

/-- `passArray` (part_003 lines 135-155), modelled on an already-parsed
list (the `Array.isArray` guard is satisfied by construction): an empty
array is rejected with "The array is empty"; otherwise each item is
validated with its index tagged onto the error, and any validation error
rejects the whole array. -/
def passArray {α : Type} (value : List α)
    (validator : α → TSResult α String) : TSResult (List α) String :=
  if value.length = 0 then .err "The array is empty"
  else
    let errors := ((List.enumFrom 0 value).map
      (fun p => (validator p.2).mapErr
        (fun e => toString p.1 ++ ": " ++ e))).filter TSResult.isErr
    if 0 < errors.length then
      .err ("One or more items failed validation: "
        ++ String.intercalate ", " (errors.map TSResult.errText))
    else .ok value

/-- `passStringRecord` (part_003 lines 161-177): a parsed record (modelled
as an association list of string-valued fields) passes iff every required
property is present; a CSV-parsed value is always a string, so the
`typeof propertyValue !== 'string'` test reduces to presence. -/
def passStringRecord (value : List (String × String))
    (properties : List String) :
    TSResult (List (String × String)) String :=
  match properties.find? (fun p => (value.lookup p).isNone) with
  | some p => .err ("Property " ++ p ++ " is not a string: undefined")
  | none => .ok value

/-- The validation stage of `loadCsv` (part_003 lines 109-120) applied to
the record list produced by a successful CSV parse (file reading and CSV
text parsing are external I/O; a file that parses successfully but has a
header row only parses to zero records, `[]`). -/
def loadCsvValidate (parsed : List (List (String × String)))
    (fields : List String) :
    TSResult (List (List (String × String))) String :=
  passArray parsed (fun item => passStringRecord item fields)

/-- The driver's gate on the loader result (part_001 lines 226-230)
composed with per-row processing and the chunked writer: an `Err` from the
loader aborts the run before any row is processed or any chunk file is
produced. -/
def pipelineFiles {β : Type} (process : List (String × String) → β)
    (source : TSResult (List (List (String × String))) String) (C : Nat) :
    TSResult (List (Nat × List β)) String :=
  match source with
  | .err e => .err e
  | .ok rows => .ok (driverLoop C (rows.map process))

/-- C10: a CSV that parses successfully but contains zero data rows
(header only) makes `loadCsv` return `Err "The array is empty"` — even
though every required column is present in the header — so the driver
aborts before processing any row and produces no chunk file. -/
theorem C10_header_only_csv_aborts (fields : List String) {β : Type}
    (process : List (String × String) → β) (C : Nat) :
    loadCsvValidate [] fields = TSResult.err "The array is empty"
    ∧ pipelineFiles process (loadCsvValidate [] fields) C =
        TSResult.err "The array is empty" :=
  ⟨rfl, rfl⟩

end LuneSimfoni
